import Mathlib

/-!
Shallow embedding of the prion-spread reaction-diffusion solver
(`src/Prion.hpp`, `src/Prion.cpp`, `src/main.cpp`).

Modelling conventions:
* machine `double` arithmetic is modelled by exact rationals `ℚ`;
* deal.II `Tensor<1, 3>` is `Fin 3 → ℚ` and `Tensor<2, 3>` is `Fin 3 → Fin 3 → ℚ`;
* the distributed Trilinos vectors handled by the Newton driver are abstracted
  by a type `V` with an addition (only `+=` is ever applied to them there);
* the per-quadrature-point data delivered by the external basis/quadrature
  provider (`FEValues`) is a record of shape values, shape gradients,
  quadrature weights and the local solution values and gradients;
* fallible external calls (the Krylov solve, which raises
  `SolverControl::NoConvergence` when its iteration cap is hit) are modelled
  with `Except Unit`; the repository contains no try/catch, so in the model
  the error value propagates through every caller.
-/

namespace Prion

/-- deal.II `Tensor<1, 3>`: a 3-vector. -/
abbrev Vec3 : Type := Fin 3 → ℚ

/-- deal.II `Tensor<2, 3>`: a rank-2 tensor over 3 dimensions. -/
abbrev Ten3 : Type := Fin 3 → Fin 3 → ℚ

/-- The deal.II contraction `a * M * b` of `Tensor<1> * Tensor<2> * Tensor<1>`,
as it appears in `fe_values.shape_grad(i, q) * D * fe_values.shape_grad(j, q)`
(Prion.cpp lines 142-143): `Σ_k Σ_l a_k M_kl b_l`. -/
def tensorDot (a : Vec3) (M : Ten3) (b : Vec3) : ℚ :=
  ∑ k, ∑ l, a k * M k l * b l

/-- `HeatNonLinear::FunctionAlpha::value` (Prion.hpp lines 45-51): ignores the
point and the component and returns `2.0`. -/
def FunctionAlpha_value (p : Vec3) (component : Nat) : ℚ := 2

/-- Member constant `axon_direction = {1, 1, 1}` (Prion.hpp line 174). -/
def axon_direction : Vec3 := fun _ => 1

/-- Member constant `d_ext = 5` (Prion.hpp line 176). -/
def d_ext : ℚ := 5

/-- Member constant `d_axn = 0` (Prion.hpp line 177). -/
def d_axn : ℚ := 0

/-- `HeatNonLinear::set_up_diffusivity` (Prion.hpp lines 71-87), parameterised
by the two scalar coefficients `de` (`d_ext`), `da` (`d_axn`) and the axon
direction vector `n` that the C++ member function reads from the object:
off-diagonal entries are `d_axn * n_i * n_j`, diagonal entries additionally
gain `d_ext`. -/
def set_up_diffusivity (de da : ℚ) (n : Vec3) : Ten3 :=
  fun i j =>
    if i ≠ j then da * n i * n j
    else de + da * n i * n j

/-- The configuration state stored by the `HeatNonLinear` constructor. -/
structure HeatNonLinearCfg where
  N : Nat
  r : Nat
  T : ℚ
  deltat : ℚ
  D : Ten3

/-- `HeatNonLinear::HeatNonLinear` (Prion.hpp lines 113-122): stores the four
arguments unchanged and computes `D = set_up_diffusivity()`.  The constructor
body performs NO validation of any argument; in particular a zero or negative
`deltat_` is stored and used as-is. -/
def HeatNonLinear_mk (N r : Nat) (T deltat : ℚ) : HeatNonLinearCfg :=
  { N := N, r := r, T := T, deltat := deltat,
    D := set_up_diffusivity d_ext d_axn axon_direction }

/-- The data available at one quadrature point `q` of one cell during
`HeatNonLinear::assemble_system` (Prion.cpp lines 91-129): shape values and
gradients from `fe_values`, the quadrature weight `JxW(q)`, the physical
coordinates `quadrature_point(q)`, and the local solution data
`solution_loc[q]`, `solution_gradient_loc[q]`, `solution_old_loc[q]` obtained
from `get_function_values` / `get_function_gradients` on `solution` and
`solution_old`. -/
structure QPointData (m : Nat) where
  shape_value : Fin m → ℚ
  shape_grad : Fin m → Vec3
  jxw : ℚ
  qpoint : Vec3
  u_loc : ℚ
  grad_u_loc : Vec3
  u_old_loc : ℚ

/-- The three `cell_matrix(i, j)` updates performed for one quadrature point
`q` in `HeatNonLinear::assemble_system` (Prion.cpp lines 133-150): the mass
term (A.1), the diffusion term (A.2) and the subtracted linearised reaction
term (A.3).  `alpha_loc = alpha.value(fe_values.quadrature_point(q))` is the
coefficient evaluated at the quadrature point (line 129). -/
def cellMatrixQ {m : Nat} (deltat : ℚ) (D : Ten3) (qp : QPointData m)
    (i j : Fin m) (acc : ℚ) : ℚ :=
  let a1 := acc + qp.shape_value i * qp.shape_value j / deltat * qp.jxw
  let a2 := a1 + tensorDot (qp.shape_grad i) D (qp.shape_grad j) * qp.jxw
  a2 - qp.shape_value i * FunctionAlpha_value qp.qpoint 0 * (1 - 2 * qp.u_loc) *
    qp.shape_value j * qp.jxw

/-- The three `cell_residual(i)` updates performed for one quadrature point
`q` in `HeatNonLinear::assemble_system` (Prion.cpp lines 153-170): the
subtracted time-derivative term (R.1), the subtracted diffusion term (R.2)
and the added reaction term (R.3). -/
def cellResidualQ {m : Nat} (deltat : ℚ) (D : Ten3) (qp : QPointData m)
    (i : Fin m) (acc : ℚ) : ℚ :=
  let r1 := acc - qp.shape_value i * (qp.u_loc - qp.u_old_loc) / deltat * qp.jxw
  let r2 := r1 - tensorDot (qp.shape_grad i) D qp.grad_u_loc * qp.jxw
  r2 + qp.shape_value i *
    (FunctionAlpha_value qp.qpoint 0 * qp.u_loc * (1 - qp.u_loc)) * qp.jxw

/-- The local Jacobian entry `cell_matrix(i, j)` after the quadrature loop of
`HeatNonLinear::assemble_system`: initialised to `0.0` (line 120) and
accumulated over the quadrature points of the cell (lines 127-151). -/
def cell_matrix {m : Nat} (deltat : ℚ) (D : Ten3) (qps : List (QPointData m))
    (i j : Fin m) : ℚ :=
  qps.foldl (fun acc qp => cellMatrixQ deltat D qp i j acc) 0

/-- The local residual entry `cell_residual(i)` after the quadrature loop of
`HeatNonLinear::assemble_system`: initialised to `0.0` (line 121) and
accumulated over the quadrature points of the cell (lines 127-171). -/
def cell_residual {m : Nat} (deltat : ℚ) (D : Ten3) (qps : List (QPointData m))
    (i : Fin m) : ℚ :=
  qps.foldl (fun acc qp => cellResidualQ deltat D qp i acc) 0

/-- The Jacobian entry exactly as the specification writes it:
`Σ_q [ φ_i(q)φ_j(q)/dt + ∇φ_i(q)·D·∇φ_j(q) − φ_i(q)·α(q)·(1−2u_k(q))·φ_j(q) ] · w_q`. -/
def jacobianEntrySpec {m : Nat} (deltat : ℚ) (D : Ten3)
    (qps : List (QPointData m)) (i j : Fin m) : ℚ :=
  (qps.map (fun qp =>
    (qp.shape_value i * qp.shape_value j / deltat
      + tensorDot (qp.shape_grad i) D (qp.shape_grad j)
      - qp.shape_value i * FunctionAlpha_value qp.qpoint 0 * (1 - 2 * qp.u_loc) *
        qp.shape_value j) * qp.jxw)).sum

/-- The residual entry exactly as the specification writes it:
`Σ_q [ −φ_i(q)·(u_k(q)−u_prev(q))/dt − ∇φ_i(q)·D·∇u_k(q) + φ_i(q)·α(q)·u_k(q)·(1−u_k(q)) ] · w_q`. -/
def residualEntrySpec {m : Nat} (deltat : ℚ) (D : Ten3)
    (qps : List (QPointData m)) (i : Fin m) : ℚ :=
  (qps.map (fun qp =>
    (- qp.shape_value i * (qp.u_loc - qp.u_old_loc) / deltat
      - tensorDot (qp.shape_grad i) D qp.grad_u_loc
      + qp.shape_value i * FunctionAlpha_value qp.qpoint 0 * qp.u_loc *
        (1 - qp.u_loc)) * qp.jxw)).sum

/-- A distributed global matrix, indexed by global DoF indices. -/
abbrev GMat : Type := Nat → Nat → ℚ

/-- A distributed global vector, indexed by global DoF indices. -/
abbrev GVec : Type := Nat → ℚ

/-- One locally owned cell as seen by the assembly loop: its quadrature data
and the global DoF indices returned by `cell->get_dof_indices(dof_indices)`
(Prion.cpp line 174). -/
structure CellData (m : Nat) where
  qps : List (QPointData m)
  dof_indices : Fin m → Nat

/-- `jacobian_matrix.add(dof_indices, cell_matrix)` (Prion.cpp line 176):
scatter-add a dense local matrix into the global matrix. -/
def scatterMatrix {m : Nat} (cd : CellData m) (loc : Fin m → Fin m → ℚ)
    (J : GMat) : GMat :=
  fun a b => J a b + ∑ i, ∑ j,
    if cd.dof_indices i = a ∧ cd.dof_indices j = b then loc i j else 0

/-- `residual_vector.add(dof_indices, cell_residual)` (Prion.cpp line 177):
scatter-add a dense local vector into the global vector. -/
def scatterVector {m : Nat} (cd : CellData m) (loc : Fin m → ℚ)
    (R : GVec) : GVec :=
  fun a => R a + ∑ i, if cd.dof_indices i = a then loc i else 0

/-- `HeatNonLinear::assemble_system` (Prion.cpp lines 90-204).  The previous
contents `prevJ`, `prevR` of `jacobian_matrix` and `residual_vector` are taken
as arguments to record that lines 104-105 (`jacobian_matrix = 0.0;
residual_vector = 0.0;`) discard them before the loop over the locally owned
cells accumulates the new contributions.  `cells` is the list of locally
owned cells (line 115 skips all others); the `compress` calls (lines 180-181)
combine cross-process contributions and are the identity in this
single-index-space model. -/
def assemble_system {m : Nat} (deltat : ℚ) (D : Ten3) (cells : List (CellData m))
    (prevJ : GMat) (prevR : GVec) : GMat × GVec :=
  let J0 : GMat := fun _ _ => 0
  let R0 : GVec := fun _ => 0
  (cells.foldl
    (fun J cd => scatterMatrix cd (fun i j => cell_matrix deltat D cd.qps i j) J) J0,
   cells.foldl
    (fun R cd => scatterVector cd (fun i => cell_residual deltat D cd.qps i) R) R0)

/-! ### The Newton driver `solve_newton` and the Krylov stage -/

/-- The two live copies of the solution seen by the Newton driver:
`solution_owned` (authoritative owned values) and `solution` (the
ghost-complete copy read during assembly). -/
structure NState (V : Type) where
  owned : V
  full : V
deriving DecidableEq

/-- The lines printed by `solve_newton` and `solve_linear_system`:
`newtonIter n r` is `"Newton iteration n/1000 - ||r|| = r"` (Prion.cpp
lines 242-244), `cgIters k` is `"k CG iterations"` (line 218), `underTol`
is `" < tolerance"` (line 256). -/
inductive LogLine where
  | newtonIter (n : Nat) (rnorm : ℚ)
  | cgIters (k : Nat)
  | underTol
deriving DecidableEq

/-- What the Newton driver observes of its two collaborators, as functions of
the current ghost-complete iterate `solution` (`solution_old`, the mesh and
the quadrature data are fixed for the duration of one sweep):

* `norm u` is `residual_vector.l2_norm()` (Prion.cpp line 240) after
  `assemble_system()` has rebuilt the residual from iterate `u`;
* `krylov u` is `SolverCG::solve` on the system assembled at `u`
  (Prion.cpp line 217): `.ok (delta, k)` yields the increment `delta_owned`
  and the CG iteration count `solver_control.last_step()`, while `.error ()`
  models the `SolverControl::NoConvergence` exception that deal.II raises
  when the cap of 1000 CG iterations (line 209) is reached without meeting
  the relative tolerance.  The repository contains no try/catch, so the
  error propagates through every caller in this model. -/
structure NewtonEnv (V : Type) where
  norm : V → ℚ
  krylov : V → Except Unit (V × Nat)

/-- `n_max_iters = 1000` (Prion.cpp line 224). -/
def n_max_iters : Nat := 1000

/-- `residual_tolerance = 1e-10` (Prion.cpp line 225). -/
def residual_tolerance : ℚ := 1 / 10 ^ 10

/-- `solution_owned += delta_owned; solution = solution_owned`
(Prion.cpp lines 253-254): the increment is added to the owned vector and the
owned vector is then copied into the ghost-complete vector. -/
def applyIncrement {V : Type} [Add V] (s : NState V) (d : V) : NState V :=
  { owned := s.owned + d, full := s.owned + d }

/-- `HeatNonLinear::solve_linear_system` (Prion.cpp lines 207-220): runs the
preconditioned CG solve and, after it returns, prints the CG iteration count.
If the solve raises `NoConvergence` the function body is abandoned before the
print, and the exception escapes (there is no handler). -/
def solve_linear_system {V : Type} (env : NewtonEnv V) (u : V) :
    List LogLine × Except Unit V :=
  match env.krylov u with
  | .error e => ([], .error e)
  | .ok (d, k) => ([.cgIters k], .ok d)

/-- The while-loop of `HeatNonLinear::solve_newton` (Prion.cpp lines 236-260).
The loop guard is `n_iter < n_max_iters && residual_norm > residual_tolerance`;
the bound `n_iter < n_max_iters` is encoded by `fuel`, with the invariant
`n_iter + fuel = n_max_iters` installed by `solve_newton` below, so that
`fuel = 0` is exactly `n_iter = n_max_iters`.  Each pass re-assembles the
system from the current iterate, recomputes the residual norm, prints the
iteration line, and either solves and applies the increment (when the norm is
above the tolerance) or prints `" < tolerance"`; either way `n_iter` is
incremented.  Returns the printed log together with the final
`(n_iter, residual_norm, state)`, or the propagated solver exception. -/
def newtonGo {V : Type} [Add V] (env : NewtonEnv V) :
    Nat → Nat → ℚ → NState V → List LogLine × Except Unit (Nat × ℚ × NState V)
  | 0, n_iter, rnorm, s => ([], .ok (n_iter, rnorm, s))
  | fuel + 1, n_iter, rnorm, s =>
    if residual_tolerance < rnorm then
      let rn := env.norm s.full
      if residual_tolerance < rn then
        match solve_linear_system env s.full with
        | (logs, .error e) => (.newtonIter n_iter rn :: logs, .error e)
        | (logs, .ok d) =>
          let out := newtonGo env fuel (n_iter + 1) rn (applyIncrement s d)
          (.newtonIter n_iter rn :: (logs ++ out.1), out.2)
      else
        let out := newtonGo env fuel (n_iter + 1) rn s
        (.newtonIter n_iter rn :: (.underTol :: out.1), out.2)
    else ([], .ok (n_iter, rnorm, s))

/-- `HeatNonLinear::solve_newton` (Prion.cpp lines 222-261): starts the loop
with `n_iter = 0` and `residual_norm = residual_tolerance + 1`
(Prion.cpp lines 227-228). -/
def solve_newton {V : Type} [Add V] (env : NewtonEnv V) (s : NState V) :
    List LogLine × Except Unit (Nat × ℚ × NState V) :=
  newtonGo env n_max_iters 0 (residual_tolerance + 1) s

/-! ### The time integrator `solve` -/

/-- The per-run environment of the time loop: for each value of
`solution_old` (the ghost-complete snapshot taken at the start of the time
step, Prion.cpp line 320) the Newton environment governing that step. -/
structure RunEnv (V : Type) where
  stepEnv : V → NewtonEnv V

/-- The while-loop of `HeatNonLinear::solve` (Prion.cpp lines 315-337).
State: current `time`, `time_step`, output frame counter `tt`, and the
solution state.  One pass: advance `time` by `deltat`, increment `time_step`,
snapshot `solution` into `solution_old` (reflected by handing `s.full` to
`re.stepEnv`), run the Newton sweep, and when `time_step % 30 = 0` emit the
snapshot `output(tt, time)` and increment `tt`.  The loop guard is
`time < T - 0.5 * deltat`; the C++ loop is unbounded, `fuel` only bounds the
recursion depth of the model and every theorem below supplies ample fuel.
Returns the emitted snapshots as `(frame index tt, time_step)` pairs (the
`time` argument passed to `output` is `time_step * deltat`) and either the
final `(time_step, state)` or the propagated solver exception. -/
def timeLoop {V : Type} [Add V] (T deltat : ℚ) (re : RunEnv V) :
    Nat → ℚ → Nat → Nat → NState V → List (Nat × Nat) × Except Unit (Nat × NState V)
  | 0, _, time_step, _, s => ([], .ok (time_step, s))
  | fuel + 1, time, time_step, tt, s =>
    if time < T - (1 / 2) * deltat then
      match (solve_newton (re.stepEnv s.full) s).2 with
      | .error e => ([], .error e)
      | .ok (_, _, s') =>
        if (time_step + 1) % 30 = 0 then
          let out := timeLoop T deltat re fuel (time + deltat) (time_step + 1) (tt + 1) s'
          ((tt, time_step + 1) :: out.1, out.2)
        else
          timeLoop T deltat re fuel (time + deltat) (time_step + 1) tt s'
    else ([], .ok (time_step, s))

/-- `HeatNonLinear::solve` (Prion.cpp lines 292-338): applies the initial
condition, emits the `t = 0` snapshot as frame 0 (`output(0, 0.0)`, line 307),
then runs the time loop from `time = 0`, `time_step = 0`, `tt = 1`
(lines 296, 312-313). -/
def solveRun {V : Type} [Add V] (T deltat : ℚ) (re : RunEnv V) (fuel : Nat)
    (s0 : NState V) : List (Nat × Nat) × Except Unit (Nat × NState V) :=
  let out := timeLoop T deltat re fuel 0 0 1 s0
  ((0, 0) :: out.1, out.2)

/-- The time loop with the Newton sweep abstracted to its observable effect: a
step function producing only the next state or an exception.  Used to state
that the integrator inspects nothing else of a sweep (no iteration count, no
residual norm, no convergence status). -/
def timeLoopF {V : Type} (T deltat : ℚ) (stepF : V → NState V → Except Unit (NState V)) :
    Nat → ℚ → Nat → Nat → NState V → List (Nat × Nat) × Except Unit (Nat × NState V)
  | 0, _, time_step, _, s => ([], .ok (time_step, s))
  | fuel + 1, time, time_step, tt, s =>
    if time < T - (1 / 2) * deltat then
      match stepF s.full s with
      | .error e => ([], .error e)
      | .ok s' =>
        if (time_step + 1) % 30 = 0 then
          let out := timeLoopF T deltat stepF fuel (time + deltat) (time_step + 1) (tt + 1) s'
          ((tt, time_step + 1) :: out.1, out.2)
        else
          timeLoopF T deltat stepF fuel (time + deltat) (time_step + 1) tt s'
    else ([], .ok (time_step, s))

/-! ### Concrete environments used to instantiate the theorems -/

/-- A sweep environment over `V = ℚ` whose first assembled residual already
meets the tolerance: the sweep converges immediately. -/
def envConv : NewtonEnv ℚ :=
  { norm := fun _ => 0, krylov := fun _ => .ok (0, 0) }

/-- A sweep environment over `V = ℚ` whose residual norm is always `1`
(far above the tolerance) while the Krylov stage always succeeds with a zero
increment: the sweep runs into the Newton iteration cap. -/
def envDiv : NewtonEnv ℚ :=
  { norm := fun _ => 1, krylov := fun _ => .ok (0, 3) }

/-- A sweep environment over `V = ℚ` whose Krylov stage hits its cap and
raises `NoConvergence` on the very first Newton iteration. -/
def envFail : NewtonEnv ℚ :=
  { norm := fun _ => 1, krylov := fun _ => .error () }

/-- A run whose every time step converges immediately. -/
def reConv : RunEnv ℚ := { stepEnv := fun _ => envConv }

/-- A run whose every Newton sweep hits the Newton iteration cap. -/
def reDiv : RunEnv ℚ := { stepEnv := fun _ => envDiv }

/-! ### Accumulation lemmas for the assembly loops -/

/-- A left fold whose step adds a per-item contribution computes the initial
value plus the sum of the contributions. -/
theorem foldl_accum {α : Type} (f : α → ℚ → ℚ) (g : α → ℚ)
    (h : ∀ x a, f x a = a + g x) :
    ∀ (l : List α) (a : ℚ), l.foldl (fun acc x => f x acc) a = a + (l.map g).sum := by
  intro l
  induction l with
  | nil => intro a; simp
  | cons x xs ih =>
    intro a
    simp only [List.foldl_cons, List.map_cons, List.sum_cons]
    rw [h, ih]
    ring

/-- One quadrature point adds exactly the bracketed Jacobian integrand times
the weight to the accumulator. -/
theorem cellMatrixQ_eq {m : Nat} (deltat : ℚ) (D : Ten3) (qp : QPointData m)
    (i j : Fin m) (acc : ℚ) :
    cellMatrixQ deltat D qp i j acc =
      acc + (qp.shape_value i * qp.shape_value j / deltat
        + tensorDot (qp.shape_grad i) D (qp.shape_grad j)
        - qp.shape_value i * FunctionAlpha_value qp.qpoint 0 * (1 - 2 * qp.u_loc) *
          qp.shape_value j) * qp.jxw := by
  simp only [cellMatrixQ]
  ring

/-- One quadrature point adds exactly the bracketed residual integrand times
the weight to the accumulator. -/
theorem cellResidualQ_eq {m : Nat} (deltat : ℚ) (D : Ten3) (qp : QPointData m)
    (i : Fin m) (acc : ℚ) :
    cellResidualQ deltat D qp i acc =
      acc + (- qp.shape_value i * (qp.u_loc - qp.u_old_loc) / deltat
        - tensorDot (qp.shape_grad i) D qp.grad_u_loc
        + qp.shape_value i * FunctionAlpha_value qp.qpoint 0 * qp.u_loc *
          (1 - qp.u_loc)) * qp.jxw := by
  simp only [cellResidualQ]
  ring

/-- The accumulated local Jacobian entry is the quadrature sum from the
specification. -/
theorem cell_matrix_eq_spec {m : Nat} (deltat : ℚ) (D : Ten3)
    (qps : List (QPointData m)) (i j : Fin m) :
    cell_matrix deltat D qps i j = jacobianEntrySpec deltat D qps i j := by
  have h := foldl_accum (fun qp acc => cellMatrixQ deltat D qp i j acc)
    (fun qp => (qp.shape_value i * qp.shape_value j / deltat
      + tensorDot (qp.shape_grad i) D (qp.shape_grad j)
      - qp.shape_value i * FunctionAlpha_value qp.qpoint 0 * (1 - 2 * qp.u_loc) *
        qp.shape_value j) * qp.jxw)
    (fun qp acc => cellMatrixQ_eq deltat D qp i j acc) qps 0
  simpa [cell_matrix, jacobianEntrySpec] using h

/-- The accumulated local residual entry is the quadrature sum from the
specification. -/
theorem cell_residual_eq_spec {m : Nat} (deltat : ℚ) (D : Ten3)
    (qps : List (QPointData m)) (i : Fin m) :
    cell_residual deltat D qps i = residualEntrySpec deltat D qps i := by
  have h := foldl_accum (fun qp acc => cellResidualQ deltat D qp i acc)
    (fun qp => (- qp.shape_value i * (qp.u_loc - qp.u_old_loc) / deltat
      - tensorDot (qp.shape_grad i) D qp.grad_u_loc
      + qp.shape_value i * FunctionAlpha_value qp.qpoint 0 * qp.u_loc *
        (1 - qp.u_loc)) * qp.jxw)
    (fun qp acc => cellResidualQ_eq deltat D qp i acc) qps 0
  simpa [cell_residual, residualEntrySpec] using h

/-! ### Behaviour of one Newton sweep -/

/-- If the loop is live (`residual_norm` above tolerance, iterations left) but
the freshly assembled residual norm meets the tolerance, the sweep prints the
iteration line and `" < tolerance"`, increments the counter once more, and
stops with the solution state unchanged: no linear solve happens and no
increment is applied. -/
theorem newtonGo_converged {V : Type} [Add V] (env : NewtonEnv V) (fuel n : Nat)
    (r : ℚ) (s : NState V) (hr : residual_tolerance < r)
    (hn : env.norm s.full ≤ residual_tolerance) :
    newtonGo env (fuel + 1) n r s =
      ([.newtonIter n (env.norm s.full), .underTol],
        .ok (n + 1, env.norm s.full, s)) := by
  have hn2 : ¬ residual_tolerance < env.norm s.full := not_lt.mpr hn
  cases fuel with
  | zero => simp [newtonGo, hr, hn2]
  | succ fuel => simp [newtonGo, hr, hn2]

/-- If the freshly assembled residual norm is still above the tolerance and
the Krylov stage returns an increment `d` with `k` CG iterations, the sweep
prints the iteration line and the CG count, applies the increment (adding it
to the owned vector and copying the owned vector into the ghost-complete
one), increments the counter and continues. -/
theorem newtonGo_step {V : Type} [Add V] (env : NewtonEnv V) (fuel n : Nat)
    (r : ℚ) (s : NState V) (d : V) (k : Nat) (hr : residual_tolerance < r)
    (hn : residual_tolerance < env.norm s.full)
    (hk : env.krylov s.full = .ok (d, k)) :
    newtonGo env (fuel + 1) n r s =
      (.newtonIter n (env.norm s.full) :: .cgIters k ::
          (newtonGo env fuel (n + 1) (env.norm s.full) (applyIncrement s d)).1,
        (newtonGo env fuel (n + 1) (env.norm s.full) (applyIncrement s d)).2) := by
  simp [newtonGo, hr, hn, solve_linear_system, hk]

/-- If the Krylov stage raises `NoConvergence`, the exception propagates out
of the sweep: the iteration line is the last thing printed, no CG count is
reported, and no increment is applied. -/
theorem newtonGo_krylovFail {V : Type} [Add V] (env : NewtonEnv V) (fuel n : Nat)
    (r : ℚ) (s : NState V) (e : Unit) (hr : residual_tolerance < r)
    (hn : residual_tolerance < env.norm s.full)
    (hk : env.krylov s.full = .error e) :
    newtonGo env (fuel + 1) n r s =
      ([.newtonIter n (env.norm s.full)], .error e) := by
  simp [newtonGo, hr, hn, solve_linear_system, hk]

/-- If every assembled residual norm stays above the tolerance and the Krylov
stage always succeeds, the loop consumes all its fuel: it returns normally
after exactly `n + fuel` iterations with a final norm still above the
tolerance, and its log contains no `" < tolerance"` line (and no other
divergence marker: the source prints none). -/
theorem newtonGo_diverges {V : Type} [Add V] (env : NewtonEnv V)
    (hn : ∀ v, residual_tolerance < env.norm v)
    (hk : ∀ v, ∃ d k, env.krylov v = .ok (d, k)) :
    ∀ (fuel n : Nat) (r : ℚ) (s : NState V), residual_tolerance < r →
      ∃ logs r2 fin, newtonGo env fuel n r s = (logs, .ok (n + fuel, r2, fin)) ∧
        residual_tolerance < r2 ∧ LogLine.underTol ∉ logs := by
  intro fuel
  induction fuel with
  | zero =>
    intro n r s hr
    exact ⟨[], r, s, by simp [newtonGo], hr, by simp⟩
  | succ fuel ih =>
    intro n r s hr
    obtain ⟨d, k, hdk⟩ := hk s.full
    obtain ⟨logs, r2, fin, heq, hr2, hmem⟩ :=
      ih (n + 1) (env.norm s.full) (applyIncrement s d) (hn s.full)
    have hcount : n + 1 + fuel = n + (fuel + 1) := by omega
    refine ⟨.newtonIter n (env.norm s.full) :: .cgIters k :: logs, r2, fin, ?_, hr2, ?_⟩
    · rw [newtonGo_step env fuel n r s d k hr (hn s.full) hdk, heq, hcount]
    · simp [hmem]

/-- `solve_newton` when the first assembled residual already meets the
tolerance: one iteration, no increment, state unchanged. -/
theorem solve_newton_conv {V : Type} [Add V] (env : NewtonEnv V) (s : NState V)
    (hn : env.norm s.full ≤ residual_tolerance) :
    solve_newton env s =
      ([.newtonIter 0 (env.norm s.full), .underTol],
        .ok (1, env.norm s.full, s)) := by
  have h := newtonGo_converged env 999 0 (residual_tolerance + 1) s
    (lt_add_one _) hn
  simpa [solve_newton, n_max_iters] using h

/-- `solve_newton` on the immediately-converging environment `envConv`
returns success with the state unchanged, for every starting state. -/
theorem solve_newton_envConv_ok (st : NState ℚ) :
    (solve_newton envConv st).2 = .ok (1, 0, st) := by
  rw [solve_newton_conv envConv st (by norm_num [envConv, residual_tolerance])]
  rfl

/-- `solve_newton` on the always-capped environment `envDiv` still returns a
success value, for every starting state. -/
theorem solve_newton_envDiv_ok (st : NState ℚ) :
    ∃ x, (solve_newton envDiv st).2 = .ok x := by
  obtain ⟨logs, r2, fin, heq, _, _⟩ :=
    newtonGo_diverges envDiv (fun v => by norm_num [envDiv, residual_tolerance])
      (fun v => ⟨0, 3, rfl⟩) n_max_iters 0 (residual_tolerance + 1) st
      (lt_add_one _)
  exact ⟨(0 + n_max_iters, r2, fin), by simpa [solve_newton] using congrArg Prod.snd heq⟩

/-! ### Behaviour of the time loop -/

/-- Computation rule for `Except.map` on a success value. -/
theorem exceptMap_ok {ε α β : Type} (f : α → β) (a : α) :
    Except.map f (Except.ok (ε := ε) a) = Except.ok (f a) := rfl

/-- Computation rule for `Except.map` on an error value. -/
theorem exceptMap_error {ε α β : Type} (f : α → β) (e : ε) :
    Except.map f (Except.error (α := α) e) = Except.error e := rfl

/-- The time integrator factors through the projection of a Newton sweep to
its final solution state (or exception): the loop inspects no iteration
count, no residual norm and no convergence status of a sweep.  In
particular there is no code path on which a sweep that hit the Newton cap is
treated differently from a converged one. -/
theorem timeLoop_factors {V : Type} [Add V] (T deltat : ℚ) (re : RunEnv V) :
    ∀ (fuel : Nat) (t : ℚ) (step tt : Nat) (s : NState V),
      timeLoop T deltat re fuel t step tt s =
        timeLoopF T deltat
          (fun v st => ((solve_newton (re.stepEnv v) st).2).map (fun x => x.2.2))
          fuel t step tt s := by
  intro fuel
  induction fuel with
  | zero => intro t step tt s; rfl
  | succ fuel ih =>
    intro t step tt s
    simp only [timeLoop, timeLoopF]
    split
    · cases hsn : (solve_newton (re.stepEnv s.full) s).2 with
      | error e => simp only [hsn, exceptMap_error]
      | ok x =>
        obtain ⟨n, r, s'⟩ := x
        simp only [hsn, exceptMap_ok]
        split <;> simp [ih]
    · rfl

/-- The final `time_step` counter of the loop never falls below the counter
it starts from. -/
theorem timeLoop_count_mono {V : Type} [Add V] (T deltat : ℚ) (re : RunEnv V) :
    ∀ (fuel : Nat) (t : ℚ) (step tt : Nat) (s : NState V) (c : Nat) (s' : NState V),
      (timeLoop T deltat re fuel t step tt s).2 = .ok (c, s') → step ≤ c := by
  intro fuel
  induction fuel with
  | zero =>
    intro t step tt s c s' h
    simp only [timeLoop, Except.ok.injEq, Prod.mk.injEq] at h
    omega
  | succ fuel ih =>
    intro t step tt s c s' h
    simp only [timeLoop] at h
    split at h
    · cases hsn : (solve_newton (re.stepEnv s.full) s).2 with
      | error e => rw [hsn] at h; simp at h
      | ok x =>
        obtain ⟨n, r, s1⟩ := x
        rw [hsn] at h
        simp only at h
        split at h
        · have := ih (t + deltat) (step + 1) (tt + 1) s1 c s' (by
            simpa using h)
          omega
        · have := ih (t + deltat) (step + 1) tt s1 c s' h
          omega
    · simp only [Except.ok.injEq, Prod.mk.injEq] at h
      omega

/-- `List.range'` unfolds one element at a time. -/
theorem range'_cons (a n : Nat) : List.range' a (n + 1) = a :: List.range' (a + 1) n := rfl

/-- As long as every Newton sweep returns (converged or capped), the loop
emits a snapshot exactly at the time steps divisible by 30, recording them
with consecutive frame indices starting from the initial `tt`. -/
theorem timeLoop_snapshots {V : Type} [Add V] (T deltat : ℚ) (re : RunEnv V)
    (hok : ∀ (v : V) (st : NState V), ∃ x, (solve_newton (re.stepEnv v) st).2 = .ok x) :
    ∀ (fuel : Nat) (t : ℚ) (step tt : Nat) (s : NState V), ∃ c s',
      (timeLoop T deltat re fuel t step tt s).2 = .ok (c, s') ∧ step ≤ c ∧
      (timeLoop T deltat re fuel t step tt s).1.map Prod.snd =
        (List.range' (step + 1) (c - step)).filter (fun x => x % 30 == 0) ∧
      (timeLoop T deltat re fuel t step tt s).1.map Prod.fst =
        List.range' tt (timeLoop T deltat re fuel t step tt s).1.length := by
  intro fuel
  induction fuel with
  | zero =>
    intro t step tt s
    exact ⟨step, s, rfl, Nat.le_refl _, by simp [timeLoop], by simp [timeLoop]⟩
  | succ fuel ih =>
    intro t step tt s
    by_cases hg : t < T - (1 / 2) * deltat
    · obtain ⟨x, hx⟩ := hok s.full s
      obtain ⟨n, r, s1⟩ := x
      by_cases h30 : (step + 1) % 30 = 0
      · obtain ⟨c, s', hc, hle, hsnd, hfst⟩ := ih (t + deltat) (step + 1) (tt + 1) s1
        have hred : timeLoop T deltat re (fuel + 1) t step tt s =
            ((tt, step + 1) ::
              (timeLoop T deltat re fuel (t + deltat) (step + 1) (tt + 1) s1).1,
             (timeLoop T deltat re fuel (t + deltat) (step + 1) (tt + 1) s1).2) := by
          simp only [timeLoop, hx, if_pos hg, if_pos h30]
        rw [hred]
        refine ⟨c, s', hc, by omega, ?_, ?_⟩
        · have hcs : c - step = (c - (step + 1)) + 1 := by omega
          simp only [List.map_cons]
          rw [hsnd, hcs, range'_cons, List.filter_cons]
          simp [h30]
        · simp only [List.map_cons, List.length_cons]
          rw [hfst, range'_cons]
      · obtain ⟨c, s', hc, hle, hsnd, hfst⟩ := ih (t + deltat) (step + 1) tt s1
        have hred : timeLoop T deltat re (fuel + 1) t step tt s =
            timeLoop T deltat re fuel (t + deltat) (step + 1) tt s1 := by
          simp only [timeLoop, hx, if_pos hg, if_neg h30]
        rw [hred]
        refine ⟨c, s', hc, by omega, ?_, hfst⟩
        have hcs : c - step = (c - (step + 1)) + 1 := by omega
        rw [hsnd, hcs, range'_cons, List.filter_cons]
        simp [h30]
    · have hred : timeLoop T deltat re (fuel + 1) t step tt s = ([], .ok (step, s)) := by
        simp only [timeLoop, if_neg hg]
      rw [hred]
      exact ⟨step, s, rfl, Nat.le_refl _, by simp, by simp⟩

/-- Counting lemma for the time loop: if the guard holds at the first `n`
step instants `t, t + dt, …, t + (n-1)·dt` and fails at `t + n·dt`, the loop
performs exactly `n` further steps, for any sufficient fuel, provided every
sweep returns. -/
theorem timeLoop_count {V : Type} [Add V] (T deltat : ℚ) (re : RunEnv V)
    (hok : ∀ (v : V) (st : NState V), ∃ x, (solve_newton (re.stepEnv v) st).2 = .ok x) :
    ∀ (n fuel : Nat), n ≤ fuel → ∀ (t : ℚ) (step tt : Nat) (s : NState V),
      (∀ k : Nat, k < n → t + (k : ℚ) * deltat < T - (1 / 2) * deltat) →
      ¬ (t + (n : ℚ) * deltat < T - (1 / 2) * deltat) →
      ∃ s2, (timeLoop T deltat re fuel t step tt s).2 = .ok (step + n, s2) := by
  intro n
  induction n with
  | zero =>
    intro fuel _ t step tt s _ hstop
    have hg : ¬ t < T - (1 / 2) * deltat := by
      intro h
      exact hstop (by simpa using h)
    cases fuel with
    | zero => exact ⟨s, by simp [timeLoop]⟩
    | succ fuel =>
      refine ⟨s, ?_⟩
      simp only [timeLoop, if_neg hg]
      simp
  | succ n ih =>
    intro fuel hnf t step tt s hgo hstop
    obtain ⟨fuel, rfl⟩ : ∃ f, fuel = f + 1 := ⟨fuel - 1, by omega⟩
    have hg : t < T - (1 / 2) * deltat := by
      have h0 := hgo 0 (by omega)
      simpa using h0
    obtain ⟨x, hx⟩ := hok s.full s
    obtain ⟨nn, r, s1⟩ := x
    have hgo2 : ∀ k : Nat, k < n →
        (t + deltat) + (k : ℚ) * deltat < T - (1 / 2) * deltat := by
      intro k hk
      have h1 := hgo (k + 1) (by omega)
      push_cast at h1
      have h2 : t + ((k : ℚ) + 1) * deltat = (t + deltat) + (k : ℚ) * deltat := by ring
      rw [h2] at h1
      exact h1
    have hstop2 : ¬ ((t + deltat) + (n : ℚ) * deltat < T - (1 / 2) * deltat) := by
      intro h
      refine hstop ?_
      push_cast
      have h2 : t + ((n : ℚ) + 1) * deltat = (t + deltat) + (n : ℚ) * deltat := by ring
      rw [h2]
      exact h
    have hcount : step + 1 + n = step + (n + 1) := by omega
    by_cases h30 : (step + 1) % 30 = 0
    · obtain ⟨s2, hs2⟩ := ih fuel (by omega) (t + deltat) (step + 1) (tt + 1) s1 hgo2 hstop2
      refine ⟨s2, ?_⟩
      have hred : timeLoop T deltat re (fuel + 1) t step tt s =
          ((tt, step + 1) ::
            (timeLoop T deltat re fuel (t + deltat) (step + 1) (tt + 1) s1).1,
           (timeLoop T deltat re fuel (t + deltat) (step + 1) (tt + 1) s1).2) := by
        simp only [timeLoop, hx, if_pos hg, if_pos h30]
      rw [hred]
      rw [hcount] at hs2
      exact hs2
    · obtain ⟨s2, hs2⟩ := ih fuel (by omega) (t + deltat) (step + 1) tt s1 hgo2 hstop2
      refine ⟨s2, ?_⟩
      have hred : timeLoop T deltat re (fuel + 1) t step tt s =
          timeLoop T deltat re fuel (t + deltat) (step + 1) tt s1 := by
        simp only [timeLoop, hx, if_pos hg, if_neg h30]
      rw [hred]
      rw [hcount] at hs2
      exact hs2

/-! ## The claims -/

/-- Claim C1: for every locally owned element and every pair of local basis
indices `(i, j)`, the assembled local Jacobian entry equals the quadrature
sum `Σ_q [ φ_i(q)φ_j(q)/dt + ∇φ_i(q)·D·∇φ_j(q) − φ_i(q)·α(q)·(1−2u_k(q))·φ_j(q) ] · w_q`,
where `u_k` is the current Newton iterate at the quadrature point; and the
global matrix is reset to zero before accumulation begins, so the result of
`assemble_system` does not depend on what a previous iteration left in the
matrix or the residual. -/
theorem claim_C1 :
    (∀ (m : Nat) (deltat : ℚ) (D : Ten3) (qps : List (QPointData m)) (i j : Fin m),
      cell_matrix deltat D qps i j = jacobianEntrySpec deltat D qps i j) ∧
    (∀ (m : Nat) (deltat : ℚ) (D : Ten3) (cells : List (CellData m))
        (prevJ prevJ2 : GMat) (prevR prevR2 : GVec),
      assemble_system deltat D cells prevJ prevR =
        assemble_system deltat D cells prevJ2 prevR2) :=
  ⟨fun _ deltat D qps i j => cell_matrix_eq_spec deltat D qps i j,
   fun _ _ _ _ _ _ _ _ => rfl⟩

/-- Claim C2: for every locally owned element and every local basis index
`i`, the assembled local residual entry equals the quadrature sum
`Σ_q [ −φ_i(q)(u_k(q)−u_prev(q))/dt − ∇φ_i(q)·D·∇u_k(q) + φ_i(q)α(q)u_k(q)(1−u_k(q)) ] · w_q`;
and the sign convention is that the Newton increment is ADDED to the owned
solution vector (`solution_owned += delta_owned`), which is then copied into
the ghost-complete vector. -/
theorem claim_C2 :
    (∀ (m : Nat) (deltat : ℚ) (D : Ten3) (qps : List (QPointData m)) (i : Fin m),
      cell_residual deltat D qps i = residualEntrySpec deltat D qps i) ∧
    (∀ (V : Type) [Add V] (s : NState V) (d : V),
      (applyIncrement s d).owned = s.owned + d ∧
      (applyIncrement s d).full = s.owned + d) :=
  ⟨fun _ deltat D qps i => cell_residual_eq_spec deltat D qps i,
   fun _ _ _ _ => ⟨rfl, rfl⟩⟩

/-- Claim C3: in every Newton sweep, a live iteration assembles the residual
afresh from the current iterate and computes its norm; if the norm is at most
the absolute tolerance `1e-10` the sweep stops (CONVERGED) with the solution
vectors untouched by that final check; otherwise the linear system is solved,
the increment is added to the owned solution, the owned solution is copied
into the ghost-complete one and the iteration counter is incremented; and if
all `1000` iterations pass without meeting the tolerance the sweep ends after
exactly `n_max_iters = 1000` iterations with a final norm still above the
tolerance (DIVERGED). -/
theorem claim_C3 :
    (∀ (V : Type) [Add V] (env : NewtonEnv V) (fuel n : Nat) (r : ℚ) (s : NState V),
      residual_tolerance < r → env.norm s.full ≤ residual_tolerance →
      newtonGo env (fuel + 1) n r s =
        ([.newtonIter n (env.norm s.full), .underTol],
          .ok (n + 1, env.norm s.full, s))) ∧
    (∀ (V : Type) [Add V] (env : NewtonEnv V) (fuel n : Nat) (r : ℚ)
        (s : NState V) (d : V) (k : Nat),
      residual_tolerance < r → residual_tolerance < env.norm s.full →
      env.krylov s.full = .ok (d, k) →
      newtonGo env (fuel + 1) n r s =
        (.newtonIter n (env.norm s.full) :: .cgIters k ::
            (newtonGo env fuel (n + 1) (env.norm s.full) (applyIncrement s d)).1,
          (newtonGo env fuel (n + 1) (env.norm s.full) (applyIncrement s d)).2)) ∧
    (∀ (V : Type) [Add V] (env : NewtonEnv V) (s : NState V),
      (∀ v, residual_tolerance < env.norm v) →
      (∀ v, ∃ d k, env.krylov v = .ok (d, k)) →
      ∃ logs r2 fin, solve_newton env s = (logs, .ok (n_max_iters, r2, fin)) ∧
        residual_tolerance < r2) := by
  refine ⟨fun V _ env fuel n r s hr hn => newtonGo_converged env fuel n r s hr hn,
    fun V _ env fuel n r s d k hr hn hk => newtonGo_step env fuel n r s d k hr hn hk,
    fun V _ env s hn hk => ?_⟩
  obtain ⟨logs, r2, fin, heq, hr2, _⟩ :=
    newtonGo_diverges env hn hk n_max_iters 0 (residual_tolerance + 1) s
      (lt_add_one _)
  exact ⟨logs, r2, fin, by simpa [solve_newton] using heq, hr2⟩

/-- Witness for C3: the three parts applied to concrete environments over
`V = ℚ` — an immediately converging sweep, one live iterating step, and a
sweep that never meets the tolerance. -/
theorem claim_C3_witness :
    (newtonGo envConv 3 0 1 ⟨(0 : ℚ), 0⟩ =
      ([.newtonIter 0 0, .underTol], .ok (1, 0, ⟨0, 0⟩))) ∧
    (newtonGo envDiv 3 0 1 ⟨(0 : ℚ), 0⟩ =
      (.newtonIter 0 1 :: .cgIters 3 ::
          (newtonGo envDiv 2 1 1 (applyIncrement ⟨0, 0⟩ 0)).1,
        (newtonGo envDiv 2 1 1 (applyIncrement ⟨0, 0⟩ 0)).2)) ∧
    (∃ logs r2 fin,
      solve_newton envDiv ⟨(0 : ℚ), 0⟩ = (logs, .ok (n_max_iters, r2, fin)) ∧
        residual_tolerance < r2) := by
  refine ⟨?_, ?_, ?_⟩
  · have h := claim_C3.1 ℚ envConv 2 0 1 ⟨0, 0⟩
      (by norm_num [residual_tolerance])
      (by norm_num [envConv, residual_tolerance])
    simpa [envConv] using h
  · have h := claim_C3.2.1 ℚ envDiv 2 0 1 ⟨0, 0⟩ 0 3
      (by norm_num [residual_tolerance])
      (by norm_num [envDiv, residual_tolerance]) rfl
    simpa [envDiv] using h
  · exact claim_C3.2.2 ℚ envDiv ⟨0, 0⟩
      (fun v => by norm_num [envDiv, residual_tolerance])
      (fun v => ⟨0, 3, rfl⟩)

/-- Claim C4 (code-bug evidence): the constructor accepts a zero time step
without any validation — the specification instead requires a non-positive
time step to be rejected as a fatal configuration error before assembly.
With the stored configuration `(N, r, T, deltat) = (19, 1, 15, 0)` the
time-loop guard `time < T - 0.5 * deltat` holds at `time = 0`, so the first
time step executes and `assemble_system` runs with `deltat = 0` (its mass
term divides by `deltat`). -/
theorem claim_C4 :
    (HeatNonLinear_mk 19 1 15 0).deltat = 0 ∧
    ((0 : ℚ) < (HeatNonLinear_mk 19 1 15 0).T -
      (1 / 2) * (HeatNonLinear_mk 19 1 15 0).deltat) := by
  exact ⟨rfl, by norm_num [HeatNonLinear_mk]⟩

/-- Claim C5 counterexample: the claim asserts that when the Krylov solve
hits its cap the condition is recoverable — the increment is still applied
and the run continues.  In the code, `SolverCG::solve` raises
`SolverControl::NoConvergence` and no caller catches it: with a sweep
environment whose Krylov stage fails on the first iteration, `solve_newton`
aborts with the exception — it does NOT return a success value, so no
increment is applied and the run does not continue. -/
theorem claim_C5_counterexample :
    (solve_newton envFail ⟨(0 : ℚ), 0⟩).2 = .error () := by
  have h := newtonGo_krylovFail envFail 999 0 (residual_tolerance + 1) ⟨0, 0⟩ ()
    (lt_add_one _) (by norm_num [envFail, residual_tolerance]) rfl
  simpa [solve_newton, n_max_iters] using congrArg Prod.snd h

/-- Claim C5 (amended): when the Krylov solve reaches its iteration cap, the
`NoConvergence` exception propagates out of `solve_linear_system` and
`solve_newton` uncaught: the sweep aborts with the error, the increment is
not applied, and not even the CG iteration count is printed (the iteration
line is the last log entry). -/
theorem claim_C5 {V : Type} [Add V] (env : NewtonEnv V) (s : NState V) (e : Unit)
    (hn : residual_tolerance < env.norm s.full)
    (hk : env.krylov s.full = .error e) :
    solve_newton env s = ([.newtonIter 0 (env.norm s.full)], .error e) := by
  have h := newtonGo_krylovFail env 999 0 (residual_tolerance + 1) s e
    (lt_add_one _) hn hk
  simpa [solve_newton, n_max_iters] using h

/-- Witness for C5: the amended theorem applied to the concrete failing
environment. -/
theorem claim_C5_witness :
    solve_newton envFail ⟨(0 : ℚ), 0⟩ = ([.newtonIter 0 1], .error ()) := by
  have h := claim_C5 envFail ⟨0, 0⟩ ()
    (by norm_num [envFail, residual_tolerance]) rfl
  simpa [envFail] using h

/-- Claim C6 counterexample: the claim asserts that Newton divergence is
reported, that the continue-versus-abort policy is configurable, and that
the time integrator treats the step as failed.  With sweeps that always hit
the Newton cap (`envDiv`): `solve_newton` returns an ordinary success value
(`n_iter = 1000`, final norm above the tolerance) carrying no failure
status; its log contains no marker distinguishing divergence (no
`" < tolerance"`, and the source prints no divergence message at all); and
the time integrator then performs the following time step exactly as after a
converged sweep — with `T = 1/5`, `deltat = 1/10` both steps run and the
loop finishes normally with `time_step = 2`. -/
theorem claim_C6_counterexample :
    (∃ logs r2 fin, solve_newton envDiv ⟨(0 : ℚ), 0⟩ = (logs, .ok (1000, r2, fin)) ∧
      residual_tolerance < r2 ∧ LogLine.underTol ∉ logs) ∧
    (∃ s2, (timeLoop (1 / 5) (1 / 10) reDiv 10 0 0 1 ⟨(0 : ℚ), 0⟩).2 =
      .ok (2, s2)) := by
  constructor
  · obtain ⟨logs, r2, fin, heq, hr2, hmem⟩ :=
      newtonGo_diverges envDiv (fun v => by norm_num [envDiv, residual_tolerance])
        (fun v => ⟨0, 3, rfl⟩) n_max_iters 0 (residual_tolerance + 1) ⟨0, 0⟩
        (lt_add_one _)
    exact ⟨logs, r2, fin, by simpa [solve_newton, n_max_iters] using heq, hr2, hmem⟩
  · have h := timeLoop_count (1 / 5) (1 / 10) reDiv
      (fun v st => solve_newton_envDiv_ok st) 2 10 (by omega) 0 0 1 ⟨0, 0⟩
      (by
        intro k hk
        have hk1 : (k : ℚ) ≤ 1 := by exact_mod_cast (by omega : k ≤ 1)
        linarith)
      (by norm_num)
    simpa using h

/-- Claim C6 (amended): when the Newton iteration cap is reached without
meeting the tolerance, the sweep ends silently: `solve_newton` returns
normally with the last iterate after exactly 1000 iterations (each iteration
line printed on the way carries its residual norm, but no dedicated
divergence message exists and no failure status is returned), and the time
integrator factors through only the final state of a sweep — it has no code
path distinguishing a capped sweep from a converged one, so the policy
`report nothing and continue` is hard-coded rather than configurable. -/
theorem claim_C6 :
    (∀ (V : Type) [Add V] (env : NewtonEnv V) (s : NState V),
      (∀ v, residual_tolerance < env.norm v) →
      (∀ v, ∃ d k, env.krylov v = .ok (d, k)) →
      ∃ logs r2 fin, solve_newton env s = (logs, .ok (n_max_iters, r2, fin)) ∧
        residual_tolerance < r2 ∧ LogLine.underTol ∉ logs) ∧
    (∀ (V : Type) [Add V] (T deltat : ℚ) (re : RunEnv V) (fuel : Nat) (t : ℚ)
        (step tt : Nat) (s : NState V),
      timeLoop T deltat re fuel t step tt s =
        timeLoopF T deltat
          (fun v st => ((solve_newton (re.stepEnv v) st).2).map (fun x => x.2.2))
          fuel t step tt s) := by
  refine ⟨fun V _ env s hn hk => ?_,
    fun V _ T deltat re fuel t step tt s =>
      timeLoop_factors T deltat re fuel t step tt s⟩
  obtain ⟨logs, r2, fin, heq, hr2, hmem⟩ :=
    newtonGo_diverges env hn hk n_max_iters 0 (residual_tolerance + 1) s
      (lt_add_one _)
  exact ⟨logs, r2, fin, by simpa [solve_newton] using heq, hr2, hmem⟩

/-- Witness for C6: the amended theorem applied to the concrete capped
environment and to a concrete two-step run. -/
theorem claim_C6_witness :
    (∃ logs r2 fin,
      solve_newton envDiv ⟨(0 : ℚ), 0⟩ = (logs, .ok (n_max_iters, r2, fin)) ∧
        residual_tolerance < r2 ∧ LogLine.underTol ∉ logs) ∧
    (timeLoop (1 / 5) (1 / 10) reDiv 3 0 0 1 ⟨(0 : ℚ), 0⟩ =
      timeLoopF (1 / 5) (1 / 10)
        (fun v st => ((solve_newton (reDiv.stepEnv v) st).2).map (fun x => x.2.2))
        3 0 0 1 ⟨0, 0⟩) :=
  ⟨claim_C6.1 ℚ envDiv ⟨0, 0⟩
      (fun v => by norm_num [envDiv, residual_tolerance])
      (fun v => ⟨0, 3, rfl⟩),
    claim_C6.2 ℚ (1 / 5) (1 / 10) reDiv 3 0 0 1 ⟨0, 0⟩⟩

/-- Claim C7 counterexample: the claim says the loop terminates exactly when
the remaining time is LESS than half a step.  With `T = 1/20`,
`deltat = 1/10` the remaining time at `time = 0` equals half a step exactly —
it is not less — yet the loop terminates immediately with zero steps: the
source guard `time < T - 0.5 * deltat` also stops on equality. -/
theorem claim_C7_counterexample :
    timeLoop (1 / 20) (1 / 10) reConv 5 0 0 1 ⟨(0 : ℚ), 0⟩ =
      ([], .ok (0, ⟨0, 0⟩)) ∧
    ¬ ((1 / 20 : ℚ) - 0 < (1 / 2) * (1 / 10)) := by
  constructor
  · have hg : ¬ ((0 : ℚ) < 1 / 20 - (1 / 2) * (1 / 10)) := by norm_num
    show timeLoop (1 / 20) (1 / 10) reConv (4 + 1) 0 0 1 ⟨(0 : ℚ), 0⟩ = _
    simp only [timeLoop, if_neg hg]
  · norm_num

/-- Claim C7 (amended): the loop advances time in fixed increments `deltat`
from `0` and terminates exactly when the remaining time `T - time` is at
most half a step: if `T - time ≤ deltat/2` it stops at once with no further
step, and if `deltat/2 < T - time` and the loop returns normally then at
least one further step is taken.  In particular for `T = 1`,
`deltat = 1/10` the integrator performs exactly 10 time steps. -/
theorem claim_C7 :
    (∀ (V : Type) [Add V] (T deltat : ℚ) (re : RunEnv V) (fuel : Nat) (t : ℚ)
        (step tt : Nat) (s : NState V), T - t ≤ (1 / 2) * deltat →
      timeLoop T deltat re (fuel + 1) t step tt s = ([], .ok (step, s))) ∧
    (∀ (V : Type) [Add V] (T deltat : ℚ) (re : RunEnv V) (fuel : Nat) (t : ℚ)
        (step tt : Nat) (s : NState V) (c : Nat) (s2 : NState V),
      (1 / 2) * deltat < T - t →
      (timeLoop T deltat re (fuel + 1) t step tt s).2 = .ok (c, s2) →
      step + 1 ≤ c) ∧
    (∃ s2, (timeLoop 1 (1 / 10) reConv 1000 0 0 1 ⟨(0 : ℚ), 0⟩).2 =
      .ok (10, s2)) := by
  refine ⟨?_, ?_, ?_⟩
  · intro V _ T deltat re fuel t step tt s hle
    have hg : ¬ t < T - (1 / 2) * deltat := by linarith
    simp only [timeLoop, if_neg hg]
  · intro V _ T deltat re fuel t step tt s c s2 hgt h
    have hg : t < T - (1 / 2) * deltat := by linarith
    simp only [timeLoop, if_pos hg] at h
    cases hsn : (solve_newton (re.stepEnv s.full) s).2 with
    | error e => rw [hsn] at h; simp at h
    | ok x =>
      obtain ⟨n, r, s1⟩ := x
      rw [hsn] at h
      simp only at h
      split at h
      · exact timeLoop_count_mono T deltat re fuel (t + deltat) (step + 1) (tt + 1)
          s1 c s2 (by simpa using h)
      · exact timeLoop_count_mono T deltat re fuel (t + deltat) (step + 1) tt
          s1 c s2 h
  · have h := timeLoop_count 1 (1 / 10) reConv
      (fun v st => ⟨(1, 0, st), solve_newton_envConv_ok st⟩) 10 1000 (by omega)
      0 0 1 ⟨0, 0⟩
      (by
        intro k hk
        have hk1 : (k : ℚ) ≤ 9 := by exact_mod_cast (by omega : k ≤ 9)
        linarith)
      (by norm_num)
    simpa using h

/-- Witness for C7: the termination rule at a boundary input where the
remaining time is exactly half a step, and the continuation rule on the
first step of the `T = 1`, `deltat = 1/10` run. -/
theorem claim_C7_witness :
    (timeLoop 1 (1 / 10) reConv 5 (19 / 20) 9 1 ⟨(0 : ℚ), 0⟩ =
      ([], .ok (9, ⟨0, 0⟩))) ∧ 0 + 1 ≤ 10 := by
  refine ⟨claim_C7.1 ℚ 1 (1 / 10) reConv 4 (19 / 20) 9 1 ⟨0, 0⟩ (by norm_num), ?_⟩
  obtain ⟨s2, hs2⟩ := claim_C7.2.2
  exact claim_C7.2.1 ℚ 1 (1 / 10) reConv 999 0 0 1 ⟨0, 0⟩ 10 s2 (by norm_num) hs2

/-- Claim C8: the `t = 0` snapshot is always emitted first with frame index
0; thereafter a snapshot is emitted exactly at the time steps whose index is
a multiple of 30, with frame indices increasing by one each time.  For the
run of `main.cpp` (`T = 15`, `deltat = 1/10`, hence `T/deltat = 150` steps)
exactly `150/30 + 1 = 6` snapshots are emitted.  The general part
characterises the loop output for any environment whose sweeps return:
emitted step indices are exactly the multiples of 30 among the executed
steps, and frame indices are consecutive from the starting `tt`. -/
theorem claim_C8 :
    ((solveRun 15 (1 / 10) reConv 1000 ⟨(0 : ℚ), 0⟩).1 =
      [(0, 0), (1, 30), (2, 60), (3, 90), (4, 120), (5, 150)]) ∧
    ((solveRun 15 (1 / 10) reConv 1000 ⟨(0 : ℚ), 0⟩).1.length = 150 / 30 + 1) ∧
    (∀ (V : Type) [Add V] (T deltat : ℚ) (re : RunEnv V),
      (∀ (v : V) (st : NState V), ∃ x, (solve_newton (re.stepEnv v) st).2 = .ok x) →
      ∀ (fuel : Nat) (t : ℚ) (step tt : Nat) (s : NState V), ∃ c s2,
        (timeLoop T deltat re fuel t step tt s).2 = .ok (c, s2) ∧ step ≤ c ∧
        (timeLoop T deltat re fuel t step tt s).1.map Prod.snd =
          (List.range' (step + 1) (c - step)).filter (fun x => x % 30 == 0) ∧
        (timeLoop T deltat re fuel t step tt s).1.map Prod.fst =
          List.range' tt (timeLoop T deltat re fuel t step tt s).1.length) := by
  have hok : ∀ (v : ℚ) (st : NState ℚ),
      ∃ x, (solve_newton (reConv.stepEnv v) st).2 = .ok x :=
    fun v st => ⟨(1, 0, st), solve_newton_envConv_ok st⟩
  have hlist : (solveRun 15 (1 / 10) reConv 1000 ⟨(0 : ℚ), 0⟩).1 =
      [(0, 0), (1, 30), (2, 60), (3, 90), (4, 120), (5, 150)] := by
    obtain ⟨c, s2, hc, hle, hsnd, hfst⟩ :=
      timeLoop_snapshots 15 (1 / 10) reConv hok 1000 0 0 1 ⟨0, 0⟩
    obtain ⟨s3, hs3⟩ := timeLoop_count 15 (1 / 10) reConv hok 150 1000 (by omega)
      0 0 1 ⟨0, 0⟩
      (by
        intro k hk
        have hk1 : (k : ℚ) ≤ 149 := by exact_mod_cast (by omega : k ≤ 149)
        linarith)
      (by norm_num)
    have hcc := hc.symm.trans hs3
    simp only [Except.ok.injEq, Prod.mk.injEq] at hcc
    have hc150 : c = 150 := by omega
    subst hc150
    have hsndl : (timeLoop 15 (1 / 10) reConv 1000 0 0 1 ⟨(0 : ℚ), 0⟩).1.map Prod.snd =
        [30, 60, 90, 120, 150] := by
      rw [hsnd]
      decide
    have hlen : (timeLoop 15 (1 / 10) reConv 1000 0 0 1 ⟨(0 : ℚ), 0⟩).1.length = 5 := by
      have := congrArg List.length hsndl
      simpa using this
    have hfstl : (timeLoop 15 (1 / 10) reConv 1000 0 0 1 ⟨(0 : ℚ), 0⟩).1.map Prod.fst =
        [1, 2, 3, 4, 5] := by
      rw [hfst, hlen]
      rfl
    have hzip := List.zip_of_prod hfstl hsndl
    simp only [solveRun]
    rw [hzip]
    rfl
  refine ⟨hlist, by rw [hlist]; rfl, fun V _ T deltat re hok2 =>
    timeLoop_snapshots T deltat re hok2⟩

/-- Witness for C8: the general characterisation applied to the concrete
always-converging run over `V = ℚ`. -/
theorem claim_C8_witness :
    ∃ c s2, (timeLoop 1 (1 / 10) reConv 50 0 0 1 ⟨(0 : ℚ), 0⟩).2 = .ok (c, s2) ∧
      0 ≤ c ∧
      (timeLoop 1 (1 / 10) reConv 50 0 0 1 ⟨(0 : ℚ), 0⟩).1.map Prod.snd =
        (List.range' 1 (c - 0)).filter (fun x => x % 30 == 0) ∧
      (timeLoop 1 (1 / 10) reConv 50 0 0 1 ⟨(0 : ℚ), 0⟩).1.map Prod.fst =
        List.range' 1 (timeLoop 1 (1 / 10) reConv 50 0 0 1 ⟨(0 : ℚ), 0⟩).1.length :=
  claim_C8.2.2 ℚ 1 (1 / 10) reConv
    (fun v st => ⟨(1, 0, st), solve_newton_envConv_ok st⟩) 50 0 0 1 ⟨0, 0⟩

/-- Claim C9: the diffusivity tensor is computed once at construction as
`D[i][j] = d_ext * δ_ij + d_axn * n_i * n_j`; it is symmetric for every
choice of coefficients and direction; and the constructed configuration
carries exactly the tensor built from the member constants. -/
theorem claim_C9 :
    (∀ (de da : ℚ) (n : Vec3) (i j : Fin 3),
      set_up_diffusivity de da n i j =
        de * (if i = j then 1 else 0) + da * n i * n j) ∧
    (∀ (de da : ℚ) (n : Vec3) (i j : Fin 3),
      set_up_diffusivity de da n i j = set_up_diffusivity de da n j i) ∧
    (∀ (N r : Nat) (T deltat : ℚ),
      (HeatNonLinear_mk N r T deltat).D =
        set_up_diffusivity d_ext d_axn axon_direction) := by
  refine ⟨?_, ?_, fun _ _ _ _ => rfl⟩
  · intro de da n i j
    by_cases h : i = j
    · subst h; simp [set_up_diffusivity]
    · simp [set_up_diffusivity, h]
  · intro de da n i j
    by_cases h : i = j
    · subst h; rfl
    · simp only [set_up_diffusivity, if_pos h, if_pos (Ne.symm h)]
      ring

/-- Claim C10: the reaction-rate coefficient is spatially constant:
`FunctionAlpha::value` returns `2.0` for every point and component, and in
consequence every quadrature-point evaluation inside the assembled local
Jacobian and residual uses the literal value `2`. -/
theorem claim_C10 :
    (∀ (p : Vec3) (component : Nat), FunctionAlpha_value p component = 2) ∧
    (∀ (m : Nat) (deltat : ℚ) (D : Ten3) (qps : List (QPointData m)) (i j : Fin m),
      cell_matrix deltat D qps i j =
        (qps.map (fun qp =>
          (qp.shape_value i * qp.shape_value j / deltat
            + tensorDot (qp.shape_grad i) D (qp.shape_grad j)
            - qp.shape_value i * 2 * (1 - 2 * qp.u_loc) * qp.shape_value j) *
          qp.jxw)).sum) ∧
    (∀ (m : Nat) (deltat : ℚ) (D : Ten3) (qps : List (QPointData m)) (i : Fin m),
      cell_residual deltat D qps i =
        (qps.map (fun qp =>
          (- qp.shape_value i * (qp.u_loc - qp.u_old_loc) / deltat
            - tensorDot (qp.shape_grad i) D qp.grad_u_loc
            + qp.shape_value i * 2 * qp.u_loc * (1 - qp.u_loc)) * qp.jxw)).sum) := by
  refine ⟨fun _ _ => rfl, ?_, ?_⟩
  · intro m deltat D qps i j
    rw [cell_matrix_eq_spec]
    simp [jacobianEntrySpec, FunctionAlpha_value]
  · intro m deltat D qps i
    rw [cell_residual_eq_spec]
    simp [residualEntrySpec, FunctionAlpha_value]

end Prion
